import Mathlib

/-!
# Verification of `ConvertAddress` (rpc/namespaces/utils/api.go)

Shallow embedding of the address-conversion utility of the repository.
The single in-repo function is `ConvertAddress`, which classifies an input
string as a hex address, a bech32 account address, or neither, and converts
between the two textual encodings of a 20-byte account address.

The hex and bech32 codecs are external library collaborators (the spec
treats them as such); they are modelled here from the spec's contracts:
`is_hex_address`, `hex_to_bytes`, `bytes_to_hex`, `encode_bech32`,
`decode_bech32`.  Bytes are modelled as `Nat` below 256; machine words in
the bech32 checksum stay below `2 ^ 30` so plain `Nat` arithmetic with
explicit masking is exact.
-/

/-! ## Bit-level utilities

The bech32 payload encoding regroups a byte stream into 5-bit groups.  We
model the regrouping through explicit bit lists (least-significant bit
first inside each group; the orientation is internal to the model and is
used consistently by the encoder and the decoder). -/

/-- The `w` low bits of `n`, least-significant first. -/
def natToBitsLSB : Nat → Nat → List Bool
  | 0, _ => []
  | w + 1, n => (n % 2 == 1) :: natToBitsLSB w (n / 2)

/-- Read back a least-significant-first bit list as a number. -/
def bitsToNatLSB : List Bool → Nat
  | [] => 0
  | b :: rest => (if b then 1 else 0) + 2 * bitsToNatLSB rest

theorem length_natToBitsLSB (w n : Nat) : (natToBitsLSB w n).length = w := by
  induction w generalizing n with
  | zero => rfl
  | succ w ih => simp [natToBitsLSB, ih]

theorem bitsToNatLSB_lt (l : List Bool) : bitsToNatLSB l < 2 ^ l.length := by
  induction l with
  | nil => simp [bitsToNatLSB]
  | cons b rest ih =>
    simp only [bitsToNatLSB, List.length_cons, pow_succ]
    cases b <;> simp <;> omega

theorem bitsToNatLSB_natToBitsLSB (w n : Nat) (h : n < 2 ^ w) :
    bitsToNatLSB (natToBitsLSB w n) = n := by
  induction w generalizing n with
  | zero => simp at h; simp [natToBitsLSB, bitsToNatLSB, h]
  | succ w ih =>
    simp only [natToBitsLSB, bitsToNatLSB]
    rw [ih (n / 2) (by rw [pow_succ] at h; omega)]
    rcases Nat.mod_two_eq_zero_or_one n with h0 | h1
    · simp [h0]; omega
    · simp [h1]; omega

theorem natToBitsLSB_bitsToNatLSB (l : List Bool) :
    natToBitsLSB l.length (bitsToNatLSB l) = l := by
  induction l with
  | nil => rfl
  | cons b rest ih =>
    have hmod : ((if b then (1 : Nat) else 0) + 2 * bitsToNatLSB rest) % 2
        = if b then 1 else 0 := by
      cases b <;> simp [Nat.add_mul_mod_self_left]
    have hdiv : ((if b then (1 : Nat) else 0) + 2 * bitsToNatLSB rest) / 2
        = bitsToNatLSB rest := by
      cases b <;> (simp; try omega)
    simp only [List.length_cons, natToBitsLSB, bitsToNatLSB, hmod, hdiv, ih]
    cases b <;> simp

/-- Fuel-driven worker for `chunkList`; structural recursion on the fuel
keeps the definition kernel-reducible.  With fuel at least the list length
the fuel never runs out. -/
def chunkListFuel (k : Nat) : Nat → List α → List (List α)
  | _, [] => []
  | 0, _ :: _ => []
  | fuel + 1, x :: xs =>
    if k = 0 then []
    else ((x :: xs).take k) :: chunkListFuel k fuel ((x :: xs).drop k)

/-- Split a list into consecutive chunks of size `k` (the final chunk may
be shorter).  `k = 0` yields the empty list of chunks. -/
def chunkList (k : Nat) (l : List α) : List (List α) := chunkListFuel k l.length l

theorem chunkListFuel_congr (k : Nat) :
    ∀ (f1 f2 : Nat) (l : List α), l.length ≤ f1 → l.length ≤ f2 →
      chunkListFuel k f1 l = chunkListFuel k f2 l := by
  intro f1
  induction f1 with
  | zero =>
    intro f2 l h1 h2
    have : l = [] := List.eq_nil_of_length_eq_zero (by omega)
    subst this
    cases f2 <;> rfl
  | succ f1 ih =>
    intro f2 l h1 h2
    cases l with
    | nil => cases f2 <;> rfl
    | cons x xs =>
      cases f2 with
      | zero => simp at h2
      | succ g =>
        simp only [chunkListFuel]
        by_cases hk : k = 0
        · simp [hk]
        · rw [if_neg hk, if_neg hk]
          congr 1
          apply ih
          · simp at h1 ⊢
            omega
          · simp at h2 ⊢
            omega

theorem chunkList_nil (k : Nat) : chunkList k ([] : List α) = [] := rfl

theorem chunkList_zero (l : List α) : chunkList 0 l = [] := by
  cases l with
  | nil => rfl
  | cons x xs =>
    show chunkListFuel 0 (xs.length + 1) (x :: xs) = []
    simp [chunkListFuel]

theorem chunkList_cons (k : Nat) (l : List α) (hk : k ≠ 0) (hl : l ≠ []) :
    chunkList k l = (l.take k) :: chunkList k (l.drop k) := by
  cases l with
  | nil => exact absurd rfl hl
  | cons x xs =>
    show chunkListFuel k (xs.length + 1) (x :: xs) = _
    simp only [chunkListFuel]
    rw [if_neg hk]
    congr 1
    apply chunkListFuel_congr
    · simp
      omega
    · rfl

/-- Chunking a concatenation of fixed-size blocks recovers the blocks. -/
theorem chunkList_flatMap (k : Nat) (hk : k ≠ 0) (f : α → List β)
    (hf : ∀ x, (f x).length = k) (l : List α) :
    chunkList k (l.flatMap f) = l.map f := by
  induction l with
  | nil => simp [chunkList_nil]
  | cons x xs ih =>
    have hfx : (f x).length = k := hf x
    have hne : f x ++ xs.flatMap f ≠ [] := by
      intro hcontra
      have := congrArg List.length hcontra
      simp [hfx] at this
      omega
    have h1 : (f x ++ xs.flatMap f).take k = f x := by
      rw [← hfx]; exact List.take_left _ _
    have h2 : (f x ++ xs.flatMap f).drop k = xs.flatMap f := by
      rw [← hfx]; exact List.drop_left _ _
    rw [List.flatMap_cons, chunkList_cons k _ hk hne, h1, h2, ih, List.map_cons]

theorem chunkList_length_le (k : Nat) (l : List α) :
    ∀ c ∈ chunkList k l, c.length ≤ k := by
  generalize hn : l.length = n
  induction n using Nat.strong_induction_on generalizing l with
  | _ n ih =>
    cases l with
    | nil => simp [chunkList_nil]
    | cons x xs =>
      by_cases hk : k = 0
      · subst hk; rw [chunkList_zero]; simp
      · rw [chunkList_cons k _ hk (by simp)]
        intro c hc
        rcases List.mem_cons.mp hc with h1 | h2
        · subst h1; simp [List.length_take]
        · exact ih ((x :: xs).drop k).length
            (by subst hn; simp [List.length_drop]; omega) _ rfl c h2

theorem chunkList_join (k : Nat) (hk : k ≠ 0) (l : List α) :
    (chunkList k l).flatten = l := by
  generalize hn : l.length = n
  induction n using Nat.strong_induction_on generalizing l with
  | _ n ih =>
    cases l with
    | nil => simp [chunkList_nil]
    | cons x xs =>
      rw [chunkList_cons k _ hk (by simp), List.flatten_cons,
        ih ((x :: xs).drop k).length
          (by subst hn; simp [List.length_drop]; omega) _ rfl,
        List.take_append_drop]

theorem chunkList_length_dvd (k : Nat) (hk : k ≠ 0) (l : List α)
    (hd : k ∣ l.length) : ∀ c ∈ chunkList k l, c.length = k := by
  generalize hn : l.length = n
  induction n using Nat.strong_induction_on generalizing l with
  | _ n ih =>
    cases l with
    | nil => simp [chunkList_nil]
    | cons x xs =>
      rw [chunkList_cons k _ hk (by simp)]
      have hkle : k ≤ (x :: xs).length := by
        rcases hd with ⟨m, hm⟩
        rcases Nat.eq_zero_or_pos m with h0 | hpos
        · subst h0; simp at hm
        · calc k = k * 1 := by ring
            _ ≤ k * m := Nat.mul_le_mul_left k hpos
            _ = (x :: xs).length := hm.symm
      intro c hc
      rcases List.mem_cons.mp hc with h1 | h2
      · subst h1
        have hkle2 := hkle
        simp at hkle2
        simp [List.length_take]
        omega
      · refine ih ((x :: xs).drop k).length
          (by subst hn; simp [List.length_drop]; omega) _
          (by rw [List.length_drop]; exact (Nat.dvd_sub' hd dvd_rfl)) rfl c h2

theorem flatMap_eq_join_of_id (L : List (List α)) (f : List α → List α)
    (hf : ∀ c ∈ L, f c = c) : L.flatMap f = L.flatten := by
  induction L with
  | nil => simp
  | cons c cs ih =>
    rw [List.flatMap_cons, hf c (by simp), List.flatten_cons,
      ih (fun d hd => hf d (by simp [hd]))]

theorem length_flatMap_const (f : α → List β) (k : Nat)
    (hf : ∀ x, (f x).length = k) (l : List α) :
    (l.flatMap f).length = k * l.length := by
  induction l with
  | nil => simp
  | cons x xs ih => simp [List.flatMap_cons, hf, ih]; ring

/-! ## Regrouping between 8-bit bytes and 5-bit groups

Models the `ConvertBits(data, 8, 5, true)` / `ConvertBits(data, 5, 8, false)`
steps of the bech32 collaborator (`decode_bech32` / `encode_bech32` in the
spec): the byte payload is carried inside the bech32 data part as 5-bit
groups.  For a 20-byte address the 160 bits split into exactly 32 groups,
so no padding bits arise. -/

/-- Regroup a byte list into 5-bit groups (encoder direction). -/
def bytesToBase32 (bytes : List Nat) : List Nat :=
  (chunkList 5 (bytes.flatMap (natToBitsLSB 8))).map bitsToNatLSB

/-- Regroup 5-bit groups back into bytes (decoder direction).  Fails when
the leftover bits (those not filling a whole byte) number 5 or more, or
when any leftover bit is set — the strict no-padding rule of the decoding
collaborator. -/
def base32ToBytes (groups : List Nat) : Option (List Nat) :=
  let bits := groups.flatMap (natToBitsLSB 5)
  let rem := bits.length % 8
  if rem < 5 ∧ (bits.drop (bits.length - rem)).all (fun b => !b) then
    some ((chunkList 8 (bits.take (bits.length - rem))).map bitsToNatLSB)
  else none

theorem length_bytesToBase32 (p : List Nat) (hl : p.length = 20) :
    (bytesToBase32 p).length = 32 := by
  have hbits : (p.flatMap (natToBitsLSB 8)).length = 160 := by
    rw [length_flatMap_const _ 8 (fun x => length_natToBitsLSB 8 x), hl]
  have hj := chunkList_join 5 (by omega) (p.flatMap (natToBitsLSB 8))
  have hlen := chunkList_length_dvd 5 (by omega) (p.flatMap (natToBitsLSB 8))
    (by rw [hbits]; omega)
  have : ((chunkList 5 (p.flatMap (natToBitsLSB 8))).map List.length).sum = 160 := by
    rw [← List.length_flatten, hj, hbits]
  rw [bytesToBase32, List.length_map]
  have hrepl : (chunkList 5 (p.flatMap (natToBitsLSB 8))).map List.length
      = List.replicate (chunkList 5 (p.flatMap (natToBitsLSB 8))).length 5 := by
    rw [← List.length_map (chunkList 5 (p.flatMap (natToBitsLSB 8))) List.length]
    apply List.eq_replicate_of_mem
    intro a ha
    rcases List.mem_map.mp ha with ⟨c, hc, hac⟩
    rw [← hac]; exact hlen c hc
  rw [hrepl] at this
  simp [List.sum_replicate, smul_eq_mul] at this
  omega

theorem bytesToBase32_lt (p : List Nat) :
    ∀ v ∈ bytesToBase32 p, v < 32 := by
  intro v hv
  rcases List.mem_map.mp hv with ⟨c, hc, hvc⟩
  have := chunkList_length_le 5 (p.flatMap (natToBitsLSB 8)) c hc
  calc v = bitsToNatLSB c := hvc.symm
    _ < 2 ^ c.length := bitsToNatLSB_lt c
    _ ≤ 2 ^ 5 := Nat.pow_le_pow_right (by omega) this

theorem base32ToBytes_bytesToBase32 (p : List Nat) (hl : p.length = 20)
    (hb : ∀ b ∈ p, b < 256) : base32ToBytes (bytesToBase32 p) = some p := by
  have hbits : (p.flatMap (natToBitsLSB 8)).length = 160 := by
    rw [length_flatMap_const _ 8 (fun x => length_natToBitsLSB 8 x), hl]
  have hlen := chunkList_length_dvd 5 (by omega) (p.flatMap (natToBitsLSB 8))
    (by rw [hbits]; omega)
  have hback : (bytesToBase32 p).flatMap (natToBitsLSB 5) = p.flatMap (natToBitsLSB 8) := by
    have hid := flatMap_eq_join_of_id (chunkList 5 (p.flatMap (natToBitsLSB 8)))
      (fun c => natToBitsLSB 5 (bitsToNatLSB c))
      (fun c hc => by
        show natToBitsLSB 5 (bitsToNatLSB c) = c
        rw [← hlen c hc, natToBitsLSB_bitsToNatLSB])
    rw [bytesToBase32, List.flatMap_map, hid, chunkList_join 5 (by omega)]
  rw [base32ToBytes]
  simp only [hback, hbits]
  norm_num
  constructor
  · rw [List.drop_eq_nil_of_le (by rw [hbits])]
    simp
  · rw [List.take_of_length_le (by rw [hbits])]
    rw [chunkList_flatMap 8 (by omega) _ (fun x => length_natToBitsLSB 8 x)]
    rw [List.map_map]
    have hmap : p.map (bitsToNatLSB ∘ natToBitsLSB 8) = p.map id := by
      apply List.map_congr_left
      intro b hbmem
      have : b < 2 ^ 8 := by have := hb b hbmem; norm_num; omega
      exact bitsToNatLSB_natToBitsLSB 8 b this
    rw [hmap, List.map_id]

/-! ## The bech32 codec collaborator

Modelled from the spec: `encode_bech32(human_readable_prefix, payload_bytes)`
and `decode_bech32(string)` are external library collaborators (the
`btcutil`-style bech32 codec behind `sdk.AccAddressFromBech32` and
`sdk.AccAddress.String`); the repository does not contain their source.
The model follows the standard bech32 scheme the spec names: a
human-readable part, a `1` separator (the last `1` of the string), a
32-character data alphabet, and a 6-group polymod checksum.  Character
case: the data alphabet is lowercase, so any uppercase data character
fails the charset lookup; strings whose human-readable part is not
lowercase `secret` never reach the decoder through `ConvertAddress`,
so mixed-case rejection coincides with charset rejection here. -/

/-- The bech32 data alphabet. -/
def bech32Charset : List Char := "qpzry9x8gf2tvdw0s3jn54khce6mua7l".data

/-- Character of a 5-bit group value. -/
def bech32CharsetChar (v : Nat) : Char := bech32Charset.getD v '?'

/-- Value of a data character, `none` when the character is not in the
alphabet. -/
def bech32CharsetIndex (c : Char) : Option Nat := bech32Charset.indexOf? c

/-- Look up every data character; fails on the first character outside the
alphabet. -/
def charsToValues : List Char → Option (List Nat)
  | [] => some []
  | c :: rest =>
    match bech32CharsetIndex c, charsToValues rest with
    | some v, some vs => some (v :: vs)
    | _, _ => none

/-- Fold the five BIP-173 generator constants into the running checksum,
driven by the five top bits saved before the shift. -/
def bech32GenFold (b c : Nat) : Nat :=
  let c1 := if b &&& 1 = 1 then c ^^^ 0x3b6a57b2 else c
  let c2 := if (b >>> 1) &&& 1 = 1 then c1 ^^^ 0x26508e6d else c1
  let c3 := if (b >>> 2) &&& 1 = 1 then c2 ^^^ 0x1ea119fa else c2
  let c4 := if (b >>> 3) &&& 1 = 1 then c3 ^^^ 0x3d4233dd else c3
  if (b >>> 4) &&& 1 = 1 then c4 ^^^ 0x2a1462b3 else c4

/-- One step of the bech32 checksum polymod (BIP-173 generator): save the
top five bits, shift the low 25 bits up by one group, mix the next word in,
then fold the generator constants selected by the saved bits. -/
def bech32PolymodStep (chk v : Nat) : Nat :=
  bech32GenFold (chk >>> 25) (((chk &&& 0x1ffffff) <<< 5) ^^^ v)

/-- The bech32 checksum polymod over a word list, starting from 1. -/
def bech32Polymod (values : List Nat) : Nat := values.foldl bech32PolymodStep 1

/-- Expansion of the human-readable part fed into the checksum. -/
def bech32HrpExpand (hrp : String) : List Nat :=
  hrp.data.map (fun c => c.toNat >>> 5) ++ [0] ++ hrp.data.map (fun c => c.toNat &&& 31)

/-- Checksum verification: the polymod of expanded hrp and data words is 1. -/
def bech32VerifyChecksum (hrp : String) (values : List Nat) : Bool :=
  bech32Polymod (bech32HrpExpand hrp ++ values) == 1

/-- The six checksum groups appended by the encoder. -/
def bech32CreateChecksum (hrp : String) (values : List Nat) : List Nat :=
  let pm := bech32Polymod (bech32HrpExpand hrp ++ values ++ [0, 0, 0, 0, 0, 0]) ^^^ 1
  [(pm >>> 25) &&& 31, (pm >>> 20) &&& 31, (pm >>> 15) &&& 31,
   (pm >>> 10) &&& 31, (pm >>> 5) &&& 31, pm &&& 31]

/-- Modelled from the spec: `encode_bech32(human_readable_prefix,
payload_bytes) -> string`. -/
def encodeBech32 (hrp : String) (payload : List Nat) : String :=
  hrp ++ "1" ++ String.mk
    ((bytesToBase32 payload ++ bech32CreateChecksum hrp (bytesToBase32 payload)).map
      bech32CharsetChar)

/-- Split a character list at its last `'1'`: human-readable part before
it, data part after it. -/
def splitAtLastOne : List Char → Option (List Char × List Char)
  | [] => none
  | c :: rest =>
    match splitAtLastOne rest with
    | some (h, d) => some (c :: h, d)
    | none => if c = '1' then some ([], rest) else none

/-- Modelled from the spec: `decode_bech32(string) -> (human_readable_prefix,
payload_bytes)`, failing on invalid checksum/format.  Returns the
human-readable part and the 5-bit data groups with the checksum removed. -/
def decodeBech32 (s : String) : Option (String × List Nat) :=
  match splitAtLastOne s.data with
  | none => none
  | some (hrpChars, dataChars) =>
    if dataChars.length < 6 then none
    else
      match charsToValues dataChars with
      | none => none
      | some values =>
        if bech32VerifyChecksum (String.mk hrpChars) values then
          some (String.mk hrpChars, values.take (values.length - 6))
        else none

/-! ## The account-address layer and the hex codec collaborator -/

/-- Modelled from the spec: the network's configured bech32
account-address human-readable part (`types.Bech32PrefixAccAddr`), a fixed
process-wide constant; the hosting network's value. -/
def Bech32PrefixAccAddr : String := "secret"

/-- Modelled from the spec: `sdk.AccAddressFromBech32` — bech32-decode the
string, require the configured account hrp and a 20-byte payload.  Returns
`none` on any decode failure (the Go function returns `nil, err`). -/
def AccAddressFromBech32 (address : String) : Option (List Nat) :=
  match decodeBech32 address with
  | none => none
  | some (hrp, data5) =>
    if hrp = Bech32PrefixAccAddr then
      match base32ToBytes data5 with
      | none => none
      | some payload => if payload.length = 20 then some payload else none
    else none

/-- Modelled from the spec: `sdk.AccAddress.String()` — the bech32
encoding of the payload under the account hrp (`encode_bech32`). -/
def AccAddressToString (payload : List Nat) : String :=
  encodeBech32 Bech32PrefixAccAddr payload

/-- A hex digit, either case. -/
def isHexDigitChar (c : Char) : Bool :=
  ('0' ≤ c && c ≤ '9') || ('a' ≤ c && c ≤ 'f') || ('A' ≤ c && c ≤ 'F')

/-- Modelled from the spec: `is_hex_address` — the fixed `0x` prefix
followed by exactly 40 hex digits (case-insensitive on input). -/
def IsHexAddress (s : String) : Bool :=
  match s.data with
  | c1 :: c2 :: rest =>
    c1 == '0' && c2 == 'x' && rest.length == 40 && rest.all isHexDigitChar
  | _ => false

/-- Numeric value of a hex digit (0 for non-digits; only applied to
digits). -/
def hexDigitVal (c : Char) : Nat :=
  if '0' ≤ c ∧ c ≤ '9' then c.toNat - '0'.toNat
  else if 'a' ≤ c ∧ c ≤ 'f' then c.toNat - 'a'.toNat + 10
  else if 'A' ≤ c ∧ c ≤ 'F' then c.toNat - 'A'.toNat + 10
  else 0

/-- Decode consecutive digit pairs into bytes. -/
def hexPairsToBytes : List Char → List Nat
  | c1 :: c2 :: rest => (16 * hexDigitVal c1 + hexDigitVal c2) :: hexPairsToBytes rest
  | _ => []

/-- Modelled from the spec: `hex_to_bytes` — the 20-byte payload of a hex
address string (`common.HexToAddress(address).Bytes()`). -/
def HexToAddressBytes (s : String) : List Nat := hexPairsToBytes (s.data.drop 2)

/-- The lowercase hex digit of a nibble. -/
def nibbleChar (n : Nat) : Char := "0123456789abcdef".data.getD n '?'

/-- Modelled from the spec: `bytes_to_hex` — `0x` followed by 40 lowercase
hex digits (`common.Address.String()`, canonical case per the spec). -/
def BytesToHexString (bs : List Nat) : String :=
  "0x" ++ String.mk (bs.flatMap (fun b => [nibbleChar (b / 16), nibbleChar (b % 16)]))

/-- Modelled from the spec: `common.BytesToAddress` — fit a byte slice
into a 20-byte address, left-padding short input with zeros and keeping
the last 20 bytes of long input. -/
def BytesToAddress (bs : List Nat) : List Nat :=
  if bs.length ≤ 20 then List.replicate (20 - bs.length) 0 ++ bs
  else bs.drop (bs.length - 20)

/-- Go `strings.HasPrefix`. -/
def HasPrefix (s pre : String) : Bool :=
  decide (s.data.take pre.data.length = pre.data)

/-- The error message of the default branch of `ConvertAddress`. -/
def invalidAddressMsg : String := "expected a valid hex or bech32 address"

/-- `ConvertAddress` of `rpc/namespaces/utils/api.go`, generalized over
the configured account hrp (the Go code reads the process-wide constant
`types.Bech32PrefixAccAddr`); the error result is `none` for success and
`some message` for the `fmt.Errorf` of the default branch.

```go
switch {
case common.IsHexAddress(address):
    addrBytes := common.HexToAddress(address).Bytes()
    convertedAddr := sdk.AccAddress(addrBytes)
    return convertedAddr.String(), nil
case strings.HasPrefix(address, types.Bech32PrefixAccAddr):
    addrBytes, _ := sdk.AccAddressFromBech32(address)
    convertedAddr := common.BytesToAddress(addrBytes)
    return convertedAddr.String(), nil
default:
    return "", fmt.Errorf("expected a valid hex or bech32 address")
}
``` -/
def ConvertAddressWith (hrp : String) (address : String) : String × Option String :=
  if IsHexAddress address then
    (encodeBech32 hrp (HexToAddressBytes address), none)
  else if HasPrefix address hrp then
    (BytesToHexString (BytesToAddress ((AccAddressFromBech32 address).getD [])), none)
  else
    ("", some invalidAddressMsg)

/-- `ConvertAddress` at the network's configured account hrp. -/
def ConvertAddress (address : String) : String × Option String :=
  ConvertAddressWith Bech32PrefixAccAddr address

/-! ## Correctness of the bech32 checksum

The key algebraic fact: a word XORed into the running checksum is carried
upward five bits per remaining step and never feeds back into the
generator selection, because the feedback reads only bits 25–29 saved
before the shift.  Hence the six checksum words contribute exactly
`pm` to the final polymod, cancelling it to 1. -/

theorem xor_shiftRight_distrib (a b n : Nat) :
    (a ^^^ b) >>> n = (a >>> n) ^^^ (b >>> n) := by
  apply Nat.eq_of_testBit_eq; intro i
  simp [Nat.testBit_shiftRight, Nat.testBit_xor]

theorem xor_shiftLeft_distrib (a b n : Nat) :
    (a ^^^ b) <<< n = (a <<< n) ^^^ (b <<< n) := by
  apply Nat.eq_of_testBit_eq; intro i
  simp only [Nat.testBit_shiftLeft, Nat.testBit_xor]
  by_cases h : n ≤ i <;> simp [h]

theorem shiftRight_eq_zero (a n : Nat) (h : a < 2 ^ n) : a >>> n = 0 := by
  rw [Nat.shiftRight_eq_div_pow]; exact Nat.div_eq_of_lt h

theorem and_mask_of_lt (a n : Nat) (h : a < 2 ^ n) : a &&& (2 ^ n - 1) = a := by
  rw [Nat.and_pow_two_sub_one_eq_mod]; exact Nat.mod_eq_of_lt h

theorem nat_xor_left_comm (a b c : Nat) : a ^^^ (b ^^^ c) = b ^^^ (a ^^^ c) := by
  rw [← Nat.xor_assoc, Nat.xor_comm a b, Nat.xor_assoc]

theorem bech32GenFold_xor (b x y : Nat) :
    bech32GenFold b (x ^^^ y) = bech32GenFold b x ^^^ y := by
  simp only [bech32GenFold]
  split_ifs <;> simp [Nat.xor_assoc, Nat.xor_comm, nat_xor_left_comm]

theorem bech32GenFold_lt (b c : Nat) (hc : c < 2 ^ 30) :
    bech32GenFold b c < 2 ^ 30 := by
  simp only [bech32GenFold]
  split_ifs <;>
    (repeat' apply Nat.xor_lt_two_pow (n := 30)) <;>
    first
      | exact hc
      | norm_num

theorem bech32PolymodStep_lt (chk v : Nat) (hv : v < 2 ^ 30) :
    bech32PolymodStep chk v < 2 ^ 30 := by
  apply bech32GenFold_lt
  apply Nat.xor_lt_two_pow _ hv
  have h1 : chk &&& 0x1ffffff ≤ 0x1ffffff := Nat.and_le_right
  rw [Nat.shiftLeft_eq]
  calc (chk &&& 0x1ffffff) * 2 ^ 5 ≤ 0x1ffffff * 2 ^ 5 :=
        Nat.mul_le_mul_right _ h1
    _ < 2 ^ 30 := by norm_num

/-- Mixing an extra low word into the checksum before a step carries it
up five bits without disturbing the generator feedback. -/
theorem bech32PolymodStep_xor_low (chk v w : Nat) (hv : v < 2 ^ 25) :
    bech32PolymodStep (chk ^^^ v) w = bech32PolymodStep chk w ^^^ (v <<< 5) := by
  unfold bech32PolymodStep
  have hb : (chk ^^^ v) >>> 25 = chk >>> 25 := by
    rw [xor_shiftRight_distrib, shiftRight_eq_zero v 25 hv, Nat.xor_zero]
  have hmask : (0x1ffffff : Nat) = 2 ^ 25 - 1 := by norm_num
  have hlow : (((chk ^^^ v) &&& 0x1ffffff) <<< 5) ^^^ w
      = ((((chk &&& 0x1ffffff) <<< 5) ^^^ w) ^^^ (v <<< 5)) := by
    rw [Nat.and_xor_distrib_right, hmask, and_mask_of_lt v 25 hv, ← hmask,
      xor_shiftLeft_distrib, Nat.xor_assoc, Nat.xor_comm (v <<< 5) w,
      ← Nat.xor_assoc]
  rw [hb, hlow, bech32GenFold_xor]

/-- A step on word `v` equals the step on word `0` XOR `v`. -/
theorem bech32PolymodStep_value (chk v : Nat) :
    bech32PolymodStep chk v = bech32PolymodStep chk 0 ^^^ v := by
  unfold bech32PolymodStep
  rw [← bech32GenFold_xor]
  congr 1
  rw [Nat.xor_zero]

theorem foldl_step_xor (ws : List Nat) (chk v : Nat)
    (hv : v * 2 ^ (5 * ws.length) < 2 ^ 30) :
    List.foldl bech32PolymodStep (chk ^^^ v) ws
      = List.foldl bech32PolymodStep chk ws ^^^ (v <<< (5 * ws.length)) := by
  induction ws generalizing chk v with
  | nil => simp
  | cons w rest ih =>
    simp only [List.foldl_cons, List.length_cons]
    have hpow : (2 : Nat) ^ 5 ≤ 2 ^ (5 * (rest.length + 1)) :=
      Nat.pow_le_pow_right (by omega) (by omega)
    have hv32 : v * 32 < 2 ^ 30 := by
      calc v * 32 = v * 2 ^ 5 := by norm_num
        _ ≤ v * 2 ^ (5 * (rest.length + 1)) := Nat.mul_le_mul_left v hpow
        _ < 2 ^ 30 := by simpa using hv
    have hv25 : v < 2 ^ 25 := by
      have : (2 : Nat) ^ 30 = 32 * 2 ^ 25 := by norm_num
      rw [this] at hv32
      have := Nat.lt_of_mul_lt_mul_right (a := 32) (by omega : v * 32 < 2 ^ 25 * 32)
      omega
    rw [bech32PolymodStep_xor_low chk v w hv25]
    rw [ih (bech32PolymodStep chk w) (v <<< 5)
      (by
        rw [Nat.shiftLeft_eq]
        calc v * 2 ^ 5 * 2 ^ (5 * rest.length) = v * 2 ^ (5 * (rest.length + 1)) := by
              rw [mul_assoc, ← pow_add]; ring_nf
          _ < 2 ^ 30 := by simpa using hv)]
    rw [← Nat.shiftLeft_add]
    congr 2
    omega

/-- The packed 30-bit value of a word list, each word five bits wide, the
head word highest. -/
def packWords : List Nat → Nat
  | [] => 0
  | v :: ws => (v <<< (5 * ws.length)) ^^^ packWords ws

theorem foldl_step_value (ws : List Nat) (chk : Nat)
    (hw : ∀ w ∈ ws, w < 32) (hlen : ws.length ≤ 6) :
    List.foldl bech32PolymodStep chk ws
      = List.foldl bech32PolymodStep chk (List.replicate ws.length 0)
          ^^^ packWords ws := by
  induction ws generalizing chk with
  | nil => simp [packWords]
  | cons v rest ih =>
    simp only [List.foldl_cons, List.length_cons, List.replicate_succ, packWords]
    have hv : v < 32 := hw v (by simp)
    rw [bech32PolymodStep_value chk v]
    rw [foldl_step_xor rest (bech32PolymodStep chk 0) v
      (by
        have h1 : v ≤ 31 := by omega
        have h2 : (2 : Nat) ^ (5 * rest.length) ≤ 2 ^ 25 :=
          Nat.pow_le_pow_right (by omega) (by simp at hlen; omega)
        calc v * 2 ^ (5 * rest.length) ≤ 31 * 2 ^ 25 := Nat.mul_le_mul h1 h2
          _ < 2 ^ 30 := by norm_num)]
    rw [ih (bech32PolymodStep chk 0) (fun w hwm => hw w (by simp [hwm]))
      (by simp at hlen; omega)]
    rw [Nat.xor_assoc, Nat.xor_comm (packWords rest) _, ← Nat.xor_assoc]

theorem foldl_step_lt (ws : List Nat) (chk : Nat) (hchk : chk < 2 ^ 30)
    (hw : ∀ w ∈ ws, w < 2 ^ 30) :
    List.foldl bech32PolymodStep chk ws < 2 ^ 30 := by
  induction ws generalizing chk with
  | nil => simpa
  | cons w rest ih =>
    simp only [List.foldl_cons]
    exact ih (bech32PolymodStep chk w)
      (bech32PolymodStep_lt chk w (hw w (by simp)))
      (fun v hv => hw v (by simp [hv]))

set_option maxHeartbeats 1600000 in
/-- Recomposing a 30-bit value from its six 5-bit slices. -/
theorem packWords_slices (pm : Nat) (h : pm < 2 ^ 30) :
    packWords [(pm >>> 25) &&& 31, (pm >>> 20) &&& 31, (pm >>> 15) &&& 31,
      (pm >>> 10) &&& 31, (pm >>> 5) &&& 31, pm &&& 31] = pm := by
  have hmask : ∀ x s : Nat, s ≤ 25 → ((x &&& 31) <<< s) < 2 ^ 30 := by
    intro x s hs
    have h1 : x &&& 31 ≤ 31 := Nat.and_le_right
    rw [Nat.shiftLeft_eq]
    calc (x &&& 31) * 2 ^ s ≤ 31 * 2 ^ 25 :=
          Nat.mul_le_mul h1 (Nat.pow_le_pow_right (by omega) hs)
      _ < 2 ^ 30 := by norm_num
  simp only [packWords, List.length_cons, List.length_nil]
  norm_num
  apply Nat.eq_of_testBit_eq
  intro i
  by_cases h30 : i < 30
  · have h31 : (31 : Nat) = 2 ^ 5 - 1 := rfl
    rw [h31]
    interval_cases i <;>
      (simp only [Nat.testBit_xor, Nat.testBit_shiftLeft, Nat.testBit_and,
        Nat.testBit_shiftRight, Nat.testBit_two_pow_sub_one]; simp)
  · have hL : ((pm >>> 25 &&& 31) <<< 25 ^^^ ((pm >>> 20 &&& 31) <<< 20 ^^^
        ((pm >>> 15 &&& 31) <<< 15 ^^^ ((pm >>> 10 &&& 31) <<< 10 ^^^
        ((pm >>> 5 &&& 31) <<< 5 ^^^ (pm &&& 31)))))) < 2 ^ 30 := by
      apply Nat.xor_lt_two_pow (hmask (pm >>> 25) 25 (by omega))
      apply Nat.xor_lt_two_pow (hmask (pm >>> 20) 20 (by omega))
      apply Nat.xor_lt_two_pow (hmask (pm >>> 15) 15 (by omega))
      apply Nat.xor_lt_two_pow (hmask (pm >>> 10) 10 (by omega))
      apply Nat.xor_lt_two_pow (hmask (pm >>> 5) 5 (by omega))
      calc pm &&& 31 ≤ 31 := Nat.and_le_right
        _ < 2 ^ 30 := by norm_num
    have h2i : (2 : Nat) ^ 30 ≤ 2 ^ i := Nat.pow_le_pow_right (by omega) (by omega)
    rw [Nat.testBit_lt_two_pow (lt_of_lt_of_le hL h2i),
      Nat.testBit_lt_two_pow (lt_of_lt_of_le h h2i)]

/-- The checksum the encoder appends makes the decoder's verification
polymod equal 1. -/
theorem bech32_create_verify (hrp : String) (data : List Nat)
    (hd : ∀ d ∈ data, d < 32)
    (hh : ∀ w ∈ bech32HrpExpand hrp, w < 2 ^ 30) :
    bech32Polymod (bech32HrpExpand hrp ++ (data ++ bech32CreateChecksum hrp data)) = 1 := by
  have hassoc : bech32HrpExpand hrp ++ (data ++ bech32CreateChecksum hrp data)
      = (bech32HrpExpand hrp ++ data) ++ bech32CreateChecksum hrp data := by
    rw [List.append_assoc]
  rw [hassoc]
  unfold bech32Polymod
  rw [List.foldl_append]
  have hchk : List.foldl bech32PolymodStep 1 (bech32HrpExpand hrp ++ data) < 2 ^ 30 := by
    apply foldl_step_lt _ _ (by norm_num)
    intro w hw
    rcases List.mem_append.mp hw with h1 | h2
    · exact hh w h1
    · calc w < 32 := hd w h2
        _ < 2 ^ 30 := by norm_num
  set chk := List.foldl bech32PolymodStep 1 (bech32HrpExpand hrp ++ data) with hchkdef
  have hz : List.foldl bech32PolymodStep chk [0, 0, 0, 0, 0, 0] < 2 ^ 30 :=
    foldl_step_lt _ _ hchk (by intro w hw; simp at hw; simp [hw])
  have hcs : bech32CreateChecksum hrp data
      = [(((List.foldl bech32PolymodStep chk [0, 0, 0, 0, 0, 0]) ^^^ 1) >>> 25) &&& 31,
         (((List.foldl bech32PolymodStep chk [0, 0, 0, 0, 0, 0]) ^^^ 1) >>> 20) &&& 31,
         (((List.foldl bech32PolymodStep chk [0, 0, 0, 0, 0, 0]) ^^^ 1) >>> 15) &&& 31,
         (((List.foldl bech32PolymodStep chk [0, 0, 0, 0, 0, 0]) ^^^ 1) >>> 10) &&& 31,
         (((List.foldl bech32PolymodStep chk [0, 0, 0, 0, 0, 0]) ^^^ 1) >>> 5) &&& 31,
         ((List.foldl bech32PolymodStep chk [0, 0, 0, 0, 0, 0]) ^^^ 1) &&& 31] := by
    simp only [bech32CreateChecksum, bech32Polymod]
    rw [List.foldl_append, ← hchkdef]
  set pm := (List.foldl bech32PolymodStep chk [0, 0, 0, 0, 0, 0]) ^^^ 1 with hpmdef
  have hpm : pm < 2 ^ 30 := Nat.xor_lt_two_pow hz (by norm_num)
  rw [hcs]
  rw [foldl_step_value _ _ ?_ (by simp)]
  · have hrep : List.replicate
        ([(pm >>> 25) &&& 31, (pm >>> 20) &&& 31, (pm >>> 15) &&& 31,
          (pm >>> 10) &&& 31, (pm >>> 5) &&& 31, pm &&& 31]).length 0
        = [0, 0, 0, 0, 0, 0] := by rfl
    rw [hrep, packWords_slices pm hpm, hpmdef]
    rw [← Nat.xor_assoc, Nat.xor_self, Nat.zero_xor]
  · intro w hw
    simp at hw
    rcases hw with h | h | h | h | h | h <;>
      (rw [h]; calc _ &&& 31 ≤ 31 := Nat.and_le_right
        _ < 32 := by omega)

/-! ## Decode/encode round trip of the bech32 collaborator -/

theorem char_toNat_lt_bound (c : Char) : c.toNat < 1114112 := by
  have h := c.valid
  unfold UInt32.isValidChar Nat.isValidChar at h
  have hv : c.toNat = c.val.toNat := rfl
  rw [hv]
  rcases h with h | ⟨h1, h2⟩
  · have hlt : c.val.toNat < (0xd800 : UInt32).toNat := h
    have he : (0xd800 : UInt32).toNat = 0xd800 := rfl
    omega
  · have hlt : c.val.toNat < (0x110000 : UInt32).toNat := h2
    have he : (0x110000 : UInt32).toNat = 0x110000 := rfl
    omega

theorem bech32HrpExpand_lt (hrp : String) :
    ∀ w ∈ bech32HrpExpand hrp, w < 2 ^ 30 := by
  intro w hw
  simp only [bech32HrpExpand] at hw
  rcases List.mem_append.mp hw with h1 | h2
  · rcases List.mem_append.mp h1 with h3 | h4
    · rcases List.mem_map.mp h3 with ⟨c, _, hc⟩
      have hle : c.toNat >>> 5 ≤ c.toNat := by
        rw [Nat.shiftRight_eq_div_pow]
        exact Nat.div_le_self _ _
      have := char_toNat_lt_bound c
      have h30 : (2 : Nat) ^ 30 = 1073741824 := by norm_num
      omega
    · simp at h4
      omega
  · rcases List.mem_map.mp h2 with ⟨c, _, hc⟩
    have hle : c.toNat &&& 31 ≤ 31 := Nat.and_le_right
    have h30 : (2 : Nat) ^ 30 = 1073741824 := by norm_num
    omega

theorem splitAtLastOne_nil : splitAtLastOne [] = none := rfl

theorem splitAtLastOne_cons (c : Char) (l : List Char) :
    splitAtLastOne (c :: l)
      = match splitAtLastOne l with
        | some (h, d) => some (c :: h, d)
        | none => if c = '1' then some ([], l) else none := rfl

theorem splitAtLastOne_of_not_mem (l : List Char) (h : '1' ∉ l) :
    splitAtLastOne l = none := by
  induction l with
  | nil => rfl
  | cons c rest ih =>
    rw [splitAtLastOne_cons, ih (fun hm => h (by simp [hm]))]
    have hc : c ≠ '1' := fun hc => h (by simp [hc])
    simp [hc]

theorem splitAtLastOne_append (h d : List Char) (hd : '1' ∉ d) :
    splitAtLastOne (h ++ '1' :: d) = some (h, d) := by
  induction h with
  | nil =>
    rw [List.nil_append, splitAtLastOne_cons,
      splitAtLastOne_of_not_mem d hd]
    simp
  | cons c rest ih =>
    rw [List.cons_append, splitAtLastOne_cons, ih]

theorem charsetIndex_charsetChar :
    ∀ v < 32, bech32CharsetIndex (bech32CharsetChar v) = some v := by
  decide

theorem charsetChar_ne_one :
    ∀ v < 32, bech32CharsetChar v ≠ '1' := by
  decide

theorem charsToValues_map (vs : List Nat) (hv : ∀ v ∈ vs, v < 32) :
    charsToValues (vs.map bech32CharsetChar) = some vs := by
  induction vs with
  | nil => rfl
  | cons v rest ih =>
    simp only [List.map_cons, charsToValues]
    rw [charsetIndex_charsetChar v (hv v (by simp)),
      ih (fun w hw => hv w (by simp [hw]))]

theorem bech32CreateChecksum_lt (hrp : String) (data : List Nat) :
    ∀ w ∈ bech32CreateChecksum hrp data, w < 32 := by
  intro w hw
  simp only [bech32CreateChecksum, List.mem_cons, List.not_mem_nil, or_false] at hw
  rcases hw with h | h | h | h | h | h <;> subst h <;>
    exact lt_of_le_of_lt Nat.and_le_right (by norm_num)

theorem bech32CreateChecksum_length (hrp : String) (data : List Nat) :
    (bech32CreateChecksum hrp data).length = 6 := rfl

theorem data_encodeBech32 (hrp : String) (p : List Nat) :
    (encodeBech32 hrp p).data
      = hrp.data ++ '1' ::
          ((bytesToBase32 p ++ bech32CreateChecksum hrp (bytesToBase32 p)).map
            bech32CharsetChar) := by
  simp only [encodeBech32, String.data_append]
  rw [List.append_assoc, List.singleton_append]

/-- Decoding an encoded address recovers the human-readable part and the
data groups. -/
theorem decodeBech32_encodeBech32 (hrp : String) (p : List Nat)
    (hlen : p.length = 20) :
    decodeBech32 (encodeBech32 hrp p) = some (hrp, bytesToBase32 p) := by
  have hd5lt := bytesToBase32_lt p
  have hcslt := bech32CreateChecksum_lt hrp (bytesToBase32 p)
  have hall : ∀ v ∈ bytesToBase32 p ++ bech32CreateChecksum hrp (bytesToBase32 p),
      v < 32 := by
    intro v hv
    rcases List.mem_append.mp hv with h | h
    · exact hd5lt v h
    · exact hcslt v h
  have hno1 : '1' ∉ ((bytesToBase32 p ++ bech32CreateChecksum hrp (bytesToBase32 p)).map
      bech32CharsetChar) := by
    intro hm
    rcases List.mem_map.mp hm with ⟨v, hvmem, hvchar⟩
    exact charsetChar_ne_one v (hall v hvmem) hvchar
  have hd5len : (bytesToBase32 p).length = 32 := length_bytesToBase32 p hlen
  have hdlen : ((bytesToBase32 p ++ bech32CreateChecksum hrp (bytesToBase32 p)).map
      bech32CharsetChar).length = 38 := by
    simp [hd5len, bech32CreateChecksum_length]
  simp only [decodeBech32, data_encodeBech32]
  rw [splitAtLastOne_append _ _ hno1]
  dsimp only
  rw [hdlen]
  norm_num
  rw [← List.map_append, charsToValues_map _ hall]
  dsimp only
  have hmkhrp : String.mk hrp.data = hrp := rfl
  rw [hmkhrp]
  have hverify : bech32VerifyChecksum hrp
      (bytesToBase32 p ++ bech32CreateChecksum hrp (bytesToBase32 p)) = true := by
    simp only [bech32VerifyChecksum]
    rw [bech32_create_verify hrp (bytesToBase32 p) hd5lt (bech32HrpExpand_lt hrp)]
    rfl
  rw [hverify]
  simp only [if_true]
  have htake : ((bytesToBase32 p ++ bech32CreateChecksum hrp (bytesToBase32 p)).length - 6)
      = (bytesToBase32 p).length := by
    simp [bech32CreateChecksum_length]
  rw [htake]
  rw [List.take_left]

/-- Decoding an account address encoded under the configured hrp recovers
the payload. -/
theorem AccAddressFromBech32_encodeBech32 (p : List Nat) (hl : p.length = 20)
    (hb : ∀ b ∈ p, b < 256) :
    AccAddressFromBech32 (encodeBech32 Bech32PrefixAccAddr p) = some p := by
  simp only [AccAddressFromBech32]
  rw [decodeBech32_encodeBech32 _ _ hl]
  dsimp only
  rw [if_pos rfl, base32ToBytes_bytesToBase32 p hl hb]
  dsimp only
  rw [if_pos hl]

/-- Bytes produced by a successful 5-to-8 regrouping are below 256. -/
theorem base32ToBytes_entries_lt (groups p : List Nat)
    (h : base32ToBytes groups = some p) : ∀ b ∈ p, b < 256 := by
  simp only [base32ToBytes] at h
  split at h
  · have hp := Option.some.inj h
    intro b hbm
    rw [← hp] at hbm
    rcases List.mem_map.mp hbm with ⟨c, hc, hbc⟩
    have hclen := chunkList_length_le 8 _ c hc
    calc b = bitsToNatLSB c := hbc.symm
      _ < 2 ^ c.length := bitsToNatLSB_lt c
      _ ≤ 2 ^ 8 := Nat.pow_le_pow_right (by omega) hclen
  · exact absurd h (by simp)

/-- A successful `AccAddressFromBech32` yields a 20-byte payload of
bytes. -/
theorem AccAddressFromBech32_some (s : String) (p : List Nat)
    (h : AccAddressFromBech32 s = some p) :
    p.length = 20 ∧ ∀ b ∈ p, b < 256 := by
  simp only [AccAddressFromBech32] at h
  split at h
  · exact absurd h (by simp)
  · rename_i hrp data5 heq
    split at h
    · split at h
      · exact absurd h (by simp)
      · rename_i payload hpay
        split at h
        · rename_i hplen
          have hp := Option.some.inj h
          rw [← hp]
          exact ⟨hplen, base32ToBytes_entries_lt data5 payload hpay⟩
        · exact absurd h (by simp)
    · exact absurd h (by simp)

/-! ## Hex codec lemmas -/

theorem hexDigitVal_nibbleChar : ∀ n < 16, hexDigitVal (nibbleChar n) = n := by
  decide

theorem nibbleChar_isHexDigit : ∀ n < 16, isHexDigitChar (nibbleChar n) = true := by
  decide

theorem nibbleChar_mem_lowercase :
    ∀ n < 16, nibbleChar n ∈ "0123456789abcdef".data := by
  decide

theorem hexPairsToBytes_cons₂ (c1 c2 : Char) (rest : List Char) :
    hexPairsToBytes (c1 :: c2 :: rest)
      = (16 * hexDigitVal c1 + hexDigitVal c2) :: hexPairsToBytes rest := rfl

theorem data_BytesToHexString (bs : List Nat) :
    (BytesToHexString bs).data
      = '0' :: 'x' :: bs.flatMap (fun b => [nibbleChar (b / 16), nibbleChar (b % 16)]) := by
  simp only [BytesToHexString, String.data_append]
  rfl

theorem length_hexNibbles (bs : List Nat) :
    (bs.flatMap (fun b => [nibbleChar (b / 16), nibbleChar (b % 16)])).length
      = 2 * bs.length :=
  length_flatMap_const (fun b => [nibbleChar (b / 16), nibbleChar (b % 16)]) 2
    (fun _ => rfl) bs

theorem IsHexAddress_BytesToHexString (p : List Nat) (hl : p.length = 20)
    (hb : ∀ b ∈ p, b < 256) : IsHexAddress (BytesToHexString p) = true := by
  rw [IsHexAddress, data_BytesToHexString]
  dsimp only
  have hlen : (p.flatMap (fun b => [nibbleChar (b / 16), nibbleChar (b % 16)])).length = 40 := by
    rw [length_hexNibbles, hl]
  rw [hlen]
  norm_num
  intro b hbm
  have hblt := hb b hbm
  exact ⟨nibbleChar_isHexDigit (b / 16) (by omega),
    nibbleChar_isHexDigit (b % 16) (by omega)⟩

theorem hexPairsToBytes_flatMap (l : List Nat) :
    hexPairsToBytes (l.flatMap (fun b => [nibbleChar (b / 16), nibbleChar (b % 16)]))
      = l.map (fun b => 16 * hexDigitVal (nibbleChar (b / 16))
          + hexDigitVal (nibbleChar (b % 16))) := by
  induction l with
  | nil => rfl
  | cons b rest ih =>
    rw [List.flatMap_cons, List.cons_append, List.cons_append, List.nil_append,
      hexPairsToBytes_cons₂, ih, List.map_cons]

theorem HexToAddressBytes_BytesToHexString (p : List Nat) (hb : ∀ b ∈ p, b < 256) :
    HexToAddressBytes (BytesToHexString p) = p := by
  rw [HexToAddressBytes, data_BytesToHexString]
  have hdrop : ('0' :: 'x' ::
      p.flatMap (fun b => [nibbleChar (b / 16), nibbleChar (b % 16)])).drop 2
      = p.flatMap (fun b => [nibbleChar (b / 16), nibbleChar (b % 16)]) := rfl
  rw [hdrop, hexPairsToBytes_flatMap]
  have hid : p.map (fun b => 16 * hexDigitVal (nibbleChar (b / 16))
      + hexDigitVal (nibbleChar (b % 16))) = p.map id := by
    apply List.map_congr_left
    intro b hbm
    have hblt := hb b hbm
    rw [hexDigitVal_nibbleChar (b / 16) (by omega),
      hexDigitVal_nibbleChar (b % 16) (by omega)]
    simp
    omega
  rw [hid, List.map_id]

theorem hexDigitVal_lt (c : Char) (h : isHexDigitChar c = true) :
    hexDigitVal c < 16 := by
  simp only [isHexDigitChar, Bool.or_eq_true, Bool.and_eq_true,
    decide_eq_true_eq] at h
  unfold hexDigitVal
  split_ifs with h1 h2 h3
  · show c.toNat - 48 < 16
    have hlo : (48 : Nat) ≤ c.toNat := h1.1
    have hhi : c.toNat ≤ 57 := h1.2
    omega
  · show c.toNat - 97 + 10 < 16
    have hlo : (97 : Nat) ≤ c.toNat := h2.1
    have hhi : c.toNat ≤ 102 := h2.2
    omega
  · show c.toNat - 65 + 10 < 16
    have hlo : (65 : Nat) ≤ c.toNat := h3.1
    have hhi : c.toNat ≤ 70 := h3.2
    omega
  · tauto

theorem length_hexPairsToBytes :
    ∀ l : List Char, (hexPairsToBytes l).length = l.length / 2
  | [] => by simp [hexPairsToBytes]
  | [c] => by
    have h1 : hexPairsToBytes [c] = [] := rfl
    simp [h1]
  | c1 :: c2 :: rest => by
    rw [hexPairsToBytes_cons₂]
    simp only [List.length_cons, length_hexPairsToBytes rest]
    omega

theorem hexPairsToBytes_lt :
    ∀ l : List Char, (∀ c ∈ l, isHexDigitChar c = true) →
      ∀ b ∈ hexPairsToBytes l, b < 256
  | [] => by simp [hexPairsToBytes]
  | [c] => by
    have h1 : hexPairsToBytes [c] = [] := rfl
    simp [h1]
  | c1 :: c2 :: rest => by
    intro h b hbm
    rw [hexPairsToBytes_cons₂] at hbm
    rcases List.mem_cons.mp hbm with h1 | h2
    · have hv1 := hexDigitVal_lt c1 (h c1 (by simp))
      have hv2 := hexDigitVal_lt c2 (h c2 (by simp))
      omega
    · exact hexPairsToBytes_lt rest (fun c hc => h c (by simp [hc])) b h2

/-! ## Branch behaviour of `ConvertAddress` -/

theorem ConvertAddressWith_hex (hrp s : String) (h : IsHexAddress s = true) :
    ConvertAddressWith hrp s = (encodeBech32 hrp (HexToAddressBytes s), none) := by
  rw [ConvertAddressWith, if_pos h]

theorem ConvertAddressWith_bech32 (hrp s : String) (h1 : IsHexAddress s = false)
    (h2 : HasPrefix s hrp = true) :
    ConvertAddressWith hrp s
      = (BytesToHexString (BytesToAddress ((AccAddressFromBech32 s).getD [])), none) := by
  rw [ConvertAddressWith, if_neg (by simp [h1]), if_pos h2]

theorem ConvertAddressWith_default (hrp s : String) (h1 : IsHexAddress s = false)
    (h2 : HasPrefix s hrp = false) :
    ConvertAddressWith hrp s = ("", some invalidAddressMsg) := by
  rw [ConvertAddressWith, if_neg (by simp [h1]), if_neg (by simp [h2])]

theorem IsHexAddress_encodeBech32 (p : List Nat) :
    IsHexAddress (encodeBech32 Bech32PrefixAccAddr p) = false := by
  rw [IsHexAddress, data_encodeBech32]
  rfl

theorem HasPrefix_encodeBech32 (p : List Nat) :
    HasPrefix (encodeBech32 Bech32PrefixAccAddr p) Bech32PrefixAccAddr = true := by
  rw [HasPrefix, data_encodeBech32]
  have h6 : (Bech32PrefixAccAddr.data).length = 6 := rfl
  rw [h6]
  have htake : ((Bech32PrefixAccAddr.data ++ '1' ::
      ((bytesToBase32 p ++ bech32CreateChecksum Bech32PrefixAccAddr (bytesToBase32 p)).map
        bech32CharsetChar))).take 6
      = Bech32PrefixAccAddr.data := by
    rw [show (6 : Nat) = (Bech32PrefixAccAddr.data).length from rfl, List.take_left]
  rw [htake]
  simp

theorem BytesToAddress_of_length (p : List Nat) (h : p.length = 20) :
    BytesToAddress p = p := by
  rw [BytesToAddress, if_pos (by omega)]
  rw [h]
  simp

theorem BytesToAddress_nil : BytesToAddress [] = List.replicate 20 0 := by
  rw [BytesToAddress]
  simp

theorem zero_address_hex :
    BytesToHexString (List.replicate 20 0)
      = "0x0000000000000000000000000000000000000000" := by
  rfl

/-- A string with the bech32 account hrp never satisfies the hex check:
it starts with a letter, not `0`. -/
theorem IsHexAddress_of_hasPrefix_secret (s : String)
    (h : HasPrefix s Bech32PrefixAccAddr = true) : IsHexAddress s = false := by
  rw [HasPrefix] at h
  simp only [decide_eq_true_eq] at h
  have hsec : (Bech32PrefixAccAddr.data) = ['s', 'e', 'c', 'r', 'e', 't'] := rfl
  rw [hsec] at h
  obtain ⟨tl, hd⟩ : ∃ tl, s.data = 's' :: tl := by
    cases hq : s.data with
    | nil => rw [hq] at h; simp at h
    | cons a l =>
      rw [hq] at h
      simp [List.take] at h
      exact ⟨l, by rw [h.1]⟩
  rw [IsHexAddress, hd]
  cases tl <;> rfl

/-- A syntactically valid hex address decodes to 20 bytes below 256. -/
theorem HexToAddressBytes_shape (s : String) (h : IsHexAddress s = true) :
    (HexToAddressBytes s).length = 20 ∧ ∀ b ∈ HexToAddressBytes s, b < 256 := by
  rw [IsHexAddress] at h
  cases hd : s.data with
  | nil => rw [hd] at h; simp at h
  | cons c1 rest =>
    cases rest with
    | nil => rw [hd] at h; simp at h
    | cons c2 rest2 =>
      rw [hd] at h
      simp only [Bool.and_eq_true, beq_iff_eq, List.all_eq_true] at h
      rcases h with ⟨⟨⟨h0, hx⟩, hlen⟩, hall⟩
      have hdrop : HexToAddressBytes s = hexPairsToBytes rest2 := by
        rw [HexToAddressBytes, hd]
        rfl
      rw [hdrop]
      constructor
      · rw [length_hexPairsToBytes, hlen]
      · exact hexPairsToBytes_lt rest2 (fun c hc => hall c hc)

/-! ## Claims -/

set_option maxRecDepth 8000 in
/-- C1 (counterexample): on `"secret1"` — which has the bech32 account
prefix and fails bech32 decoding — `ConvertAddress` does not return the
decode error: it returns the zero-address hex string with a nil error.
The decode error of the collaborator is discarded by the code
(`addrBytes, _ := sdk.AccAddressFromBech32(address)`). -/
theorem claim_C1_counterexample :
    HasPrefix "secret1" Bech32PrefixAccAddr = true ∧
    AccAddressFromBech32 "secret1" = none ∧
    ConvertAddress "secret1"
      = ("0x0000000000000000000000000000000000000000", none) :=
  ⟨by decide, by decide, by decide⟩

/-- C1 (amended): for every input with the bech32 account prefix on which
the bech32 decode collaborator fails, `ConvertAddress` returns a nil
error — the decode failure is discarded, not propagated. -/
theorem claim_C1_amended (s : String)
    (hpre : HasPrefix s Bech32PrefixAccAddr = true)
    (_hdec : AccAddressFromBech32 s = none) :
    (ConvertAddress s).2 = none := by
  rw [ConvertAddress,
    ConvertAddressWith_bech32 _ _ (IsHexAddress_of_hasPrefix_secret s hpre) hpre]

set_option maxRecDepth 8000 in
/-- C1 (witness): the amended claim at `"secret1"`. -/
theorem claim_C1_witness :
    HasPrefix "secret1" Bech32PrefixAccAddr = true ∧
    AccAddressFromBech32 "secret1" = none ∧
    (ConvertAddress "secret1").2 = none :=
  ⟨by decide, by decide, claim_C1_amended "secret1" (by decide) (by decide)⟩

/-- C2: every input with the bech32 account prefix yields a nil error, and
the only error `ConvertAddress` ever returns is the `InvalidFormat` error
of the default branch, returned exactly when the input is neither a hex
address nor bech32-prefixed. -/
theorem claim_C2 (s : String) :
    (HasPrefix s Bech32PrefixAccAddr = true → (ConvertAddress s).2 = none) ∧
    ((ConvertAddress s).2 ≠ none →
      ConvertAddress s = ("", some invalidAddressMsg) ∧
      IsHexAddress s = false ∧ HasPrefix s Bech32PrefixAccAddr = false) := by
  by_cases hhex : IsHexAddress s = true
  · constructor
    · intro _
      rw [ConvertAddress, ConvertAddressWith_hex _ _ hhex]
    · intro hne
      rw [ConvertAddress, ConvertAddressWith_hex _ _ hhex] at hne
      simp at hne
  · have hhex' : IsHexAddress s = false := by
      simpa using hhex
    by_cases hpre : HasPrefix s Bech32PrefixAccAddr = true
    · constructor
      · intro _
        rw [ConvertAddress, ConvertAddressWith_bech32 _ _ hhex' hpre]
      · intro hne
        rw [ConvertAddress, ConvertAddressWith_bech32 _ _ hhex' hpre] at hne
        simp at hne
    · have hpre' : HasPrefix s Bech32PrefixAccAddr = false := by
        simpa using hpre
      constructor
      · intro hcontra
        rw [hcontra] at hpre'
        simp at hpre'
      · intro _
        exact ⟨by rw [ConvertAddress, ConvertAddressWith_default _ _ hhex' hpre'],
          hhex', hpre'⟩

set_option maxRecDepth 8000 in
/-- C2 (witness): nil error on a bech32-prefixed input, and the
`InvalidFormat` error with both classifications false on a rejected
input. -/
theorem claim_C2_witness :
    (ConvertAddress "secret1x").2 = none ∧
    (ConvertAddress "zz" = ("", some invalidAddressMsg) ∧
      IsHexAddress "zz" = false ∧ HasPrefix "zz" Bech32PrefixAccAddr = false) :=
  ⟨(claim_C2 "secret1x").1 (by decide), (claim_C2 "zz").2 (by decide)⟩

/-- C3: every input with the bech32 account prefix on which the decode
collaborator fails converts to the hex rendering of the zero 20-byte
address with a nil error. -/
theorem claim_C3 (s : String)
    (hpre : HasPrefix s Bech32PrefixAccAddr = true)
    (hdec : AccAddressFromBech32 s = none) :
    ConvertAddress s = ("0x0000000000000000000000000000000000000000", none) := by
  rw [ConvertAddress,
    ConvertAddressWith_bech32 _ _ (IsHexAddress_of_hasPrefix_secret s hpre) hpre,
    hdec]
  simp only [Option.getD_none]
  rw [BytesToAddress_nil, zero_address_hex]

set_option maxRecDepth 8000 in
/-- C3 (witness): the claim at `"secret1"`. -/
theorem claim_C3_witness :
    ConvertAddress "secret1"
      = ("0x0000000000000000000000000000000000000000", none) :=
  claim_C3 "secret1" (by decide) (by decide)

set_option maxRecDepth 8000 in
/-- C4 (counterexample): double conversion is not the identity on every
valid hex address string: an uppercase hex input comes back in canonical
lowercase form. -/
theorem claim_C4_counterexample :
    IsHexAddress "0xAAAAAAAAAAAAAAAAAAAAAAAAAAAAAAAAAAAAAAAA" = true ∧
    (ConvertAddress
        (ConvertAddress "0xAAAAAAAAAAAAAAAAAAAAAAAAAAAAAAAAAAAAAAAA").1).1
      ≠ "0xAAAAAAAAAAAAAAAAAAAAAAAAAAAAAAAAAAAAAAAA" :=
  ⟨by decide, by decide⟩

/-- C4 (amended): double conversion is the identity on canonical address
strings — the lowercase hex rendering and the bech32 rendering of any
20-byte payload (same fixed network prefix across both calls). -/
theorem claim_C4_amended (p : List Nat) (hl : p.length = 20)
    (hb : ∀ b ∈ p, b < 256) :
    (ConvertAddress (ConvertAddress (BytesToHexString p)).1).1
        = BytesToHexString p ∧
    (ConvertAddress (ConvertAddress (encodeBech32 Bech32PrefixAccAddr p)).1).1
        = encodeBech32 Bech32PrefixAccAddr p := by
  have hhexof : ConvertAddress (BytesToHexString p)
      = (encodeBech32 Bech32PrefixAccAddr p, none) := by
    rw [ConvertAddress,
      ConvertAddressWith_hex _ _ (IsHexAddress_BytesToHexString p hl hb),
      HexToAddressBytes_BytesToHexString p hb]
  have hbechof : ConvertAddress (encodeBech32 Bech32PrefixAccAddr p)
      = (BytesToHexString p, none) := by
    rw [ConvertAddress,
      ConvertAddressWith_bech32 _ _ (IsHexAddress_encodeBech32 p)
        (HasPrefix_encodeBech32 p),
      AccAddressFromBech32_encodeBech32 p hl hb]
    simp only [Option.getD_some]
    rw [BytesToAddress_of_length p hl]
  constructor
  · rw [hhexof]
    dsimp only
    rw [hbechof]
  · rw [hbechof]
    dsimp only
    rw [hhexof]

set_option maxRecDepth 8000 in
/-- C4 (witness): the amended claim at the payload of twenty `0x12`
bytes. -/
theorem claim_C4_witness :
    (List.replicate 20 18).length = 20 ∧
    (∀ b ∈ List.replicate 20 18, b < 256) ∧
    ((ConvertAddress
        (ConvertAddress (BytesToHexString (List.replicate 20 18))).1).1
      = BytesToHexString (List.replicate 20 18) ∧
     (ConvertAddress
        (ConvertAddress
          (encodeBech32 Bech32PrefixAccAddr (List.replicate 20 18))).1).1
      = encodeBech32 Bech32PrefixAccAddr (List.replicate 20 18)) :=
  ⟨by decide, by decide, claim_C4_amended (List.replicate 20 18) (by decide) (by decide)⟩

/-- C5: on any input taking the bech32 branch whose decode succeeds with
payload `p`, the returned string is exactly that payload re-encoded by the
`bytes_to_hex` collaborator — `0x` followed by 40 lowercase hexadecimal
digits. -/
theorem claim_C5 (s : String) (p : List Nat)
    (hpre : HasPrefix s Bech32PrefixAccAddr = true)
    (hdec : AccAddressFromBech32 s = some p) :
    (ConvertAddress s).1 = BytesToHexString p ∧
    (BytesToHexString p).data.length = 42 ∧
    (BytesToHexString p).data.take 2 = ['0', 'x'] ∧
    ∀ c ∈ (BytesToHexString p).data.drop 2, c ∈ "0123456789abcdef".data := by
  obtain ⟨hplen, hplt⟩ := AccAddressFromBech32_some s p hdec
  have hout : (ConvertAddress s).1 = BytesToHexString p := by
    rw [ConvertAddress,
      ConvertAddressWith_bech32 _ _ (IsHexAddress_of_hasPrefix_secret s hpre) hpre,
      hdec]
    simp only [Option.getD_some]
    rw [BytesToAddress_of_length p hplen]
  refine ⟨hout, ?_, ?_, ?_⟩
  · rw [data_BytesToHexString]
    simp only [List.length_cons]
    rw [length_hexNibbles, hplen]
  · rw [data_BytesToHexString]
    rfl
  · rw [data_BytesToHexString]
    intro c hc
    have hdrop : (('0' :: 'x' ::
        p.flatMap (fun b => [nibbleChar (b / 16), nibbleChar (b % 16)]))).drop 2
        = p.flatMap (fun b => [nibbleChar (b / 16), nibbleChar (b % 16)]) := rfl
    rw [hdrop] at hc
    rcases List.mem_flatMap.mp hc with ⟨b, hbm, hcb⟩
    have hblt := hplt b hbm
    rcases List.mem_cons.mp hcb with h1 | h2
    · rw [h1]
      exact nibbleChar_mem_lowercase (b / 16) (by omega)
    · rcases List.mem_cons.mp h2 with h3 | h4
      · rw [h3]
        exact nibbleChar_mem_lowercase (b % 16) (by omega)
      · simp at h4

set_option maxRecDepth 8000 in
/-- C5 (witness): the claim at the bech32 encoding of twenty `0x12`
bytes. -/
theorem claim_C5_witness :
    HasPrefix "secret1jsyypfgzjsyypfgzjsyypfgzjsyypfgzwm6x2z"
        Bech32PrefixAccAddr = true ∧
    AccAddressFromBech32 "secret1jsyypfgzjsyypfgzjsyypfgzjsyypfgzwm6x2z"
        = some (List.replicate 20 18) ∧
    ((ConvertAddress "secret1jsyypfgzjsyypfgzjsyypfgzjsyypfgzwm6x2z").1
        = BytesToHexString (List.replicate 20 18) ∧
     (BytesToHexString (List.replicate 20 18)).data.length = 42 ∧
     (BytesToHexString (List.replicate 20 18)).data.take 2 = ['0', 'x'] ∧
     ∀ c ∈ (BytesToHexString (List.replicate 20 18)).data.drop 2,
        c ∈ "0123456789abcdef".data) :=
  ⟨by decide, by decide,
    claim_C5 "secret1jsyypfgzjsyypfgzjsyypfgzjsyypfgzwm6x2z"
      (List.replicate 20 18) (by decide) (by decide)⟩

/-- C6: the hex classifier of step 1 accepts exactly the strings of the
form `0x` followed by 40 hex digits (either case), stated structurally
over the character list. -/
theorem claim_C6 (s : String) :
    IsHexAddress s = true ↔
      (s.data.length = 42 ∧ s.data.take 2 = ['0', 'x'] ∧
        ∀ c ∈ s.data.drop 2,
          ('0' ≤ c ∧ c ≤ '9') ∨ ('a' ≤ c ∧ c ≤ 'f') ∨ ('A' ≤ c ∧ c ≤ 'F')) := by
  have hiff : ∀ c : Char, isHexDigitChar c = true ↔
      (('0' ≤ c ∧ c ≤ '9') ∨ ('a' ≤ c ∧ c ≤ 'f') ∨ ('A' ≤ c ∧ c ≤ 'F')) := by
    intro c
    simp [isHexDigitChar, Bool.or_eq_true, Bool.and_eq_true, decide_eq_true_eq]
    tauto
  rw [IsHexAddress]
  cases hd : s.data with
  | nil => simp
  | cons c1 rest =>
    cases rest with
    | nil => simp
    | cons c2 rest2 =>
      simp only [Bool.and_eq_true, beq_iff_eq, List.all_eq_true,
        List.length_cons, List.take_succ_cons, List.take_zero, List.drop_succ_cons,
        List.drop_zero, List.cons.injEq, and_true]
      constructor
      · rintro ⟨⟨⟨h0, hx⟩, hlen⟩, hall⟩
        exact ⟨by omega, ⟨h0, hx⟩, fun c hc => (hiff c).mp (hall c hc)⟩
      · rintro ⟨hlen, ⟨h0, hx⟩, hall⟩
        exact ⟨⟨⟨h0, hx⟩, by omega⟩, fun c hc => (hiff c).mpr (hall c hc)⟩

/-- C7: an input that is neither a valid hex address nor bech32-prefixed
yields the empty string and the `InvalidFormat` error message saying a
valid hex or bech32 address was expected. -/
theorem claim_C7 (s : String) (h1 : IsHexAddress s = false)
    (h2 : HasPrefix s Bech32PrefixAccAddr = false) :
    ConvertAddress s = ("", some "expected a valid hex or bech32 address") := by
  rw [ConvertAddress, ConvertAddressWith_default _ _ h1 h2]
  rfl

set_option maxRecDepth 8000 in
/-- C7 (witness): the claim at `"not-an-address"`. -/
theorem claim_C7_witness :
    ConvertAddress "not-an-address"
      = ("", some "expected a valid hex or bech32 address") :=
  claim_C7 "not-an-address" (by decide) (by decide)

/-- C8: a valid hex address converts, with a nil error, to the bech32
encoding of exactly its 20-byte payload under the account prefix, and
that bech32 string decodes back to the identical payload. -/
theorem claim_C8 (s : String) (hhex : IsHexAddress s = true) :
    ConvertAddress s
      = (encodeBech32 Bech32PrefixAccAddr (HexToAddressBytes s), none) ∧
    AccAddressFromBech32 (encodeBech32 Bech32PrefixAccAddr (HexToAddressBytes s))
      = some (HexToAddressBytes s) := by
  obtain ⟨hlen, hlt⟩ := HexToAddressBytes_shape s hhex
  exact ⟨by rw [ConvertAddress, ConvertAddressWith_hex _ _ hhex],
    AccAddressFromBech32_encodeBech32 _ hlen hlt⟩

set_option maxRecDepth 8000 in
/-- C8 (witness): the claim at a concrete valid hex address. -/
theorem claim_C8_witness :
    ConvertAddress "0x1234567890123456789012345678901234567890"
      = (encodeBech32 Bech32PrefixAccAddr
          (HexToAddressBytes "0x1234567890123456789012345678901234567890"), none) ∧
    AccAddressFromBech32 (encodeBech32 Bech32PrefixAccAddr
        (HexToAddressBytes "0x1234567890123456789012345678901234567890"))
      = some (HexToAddressBytes "0x1234567890123456789012345678901234567890") :=
  claim_C8 "0x1234567890123456789012345678901234567890" (by decide)

/-- C9: classification precedence — any input satisfying the strict hex
pattern takes the hex branch, even when it also starts with the
configured bech32 prefix; the hex check is evaluated first. -/
theorem claim_C9 (hrp s : String) (hhex : IsHexAddress s = true)
    (_hpre : HasPrefix s hrp = true) :
    ConvertAddressWith hrp s = (encodeBech32 hrp (HexToAddressBytes s), none) :=
  ConvertAddressWith_hex hrp s hhex

set_option maxRecDepth 8000 in
/-- C9 (witness): with prefix `"0x"` both classifications hold at once
and the hex branch wins. -/
theorem claim_C9_witness :
    IsHexAddress "0x1234567890123456789012345678901234567890" = true ∧
    HasPrefix "0x1234567890123456789012345678901234567890" "0x" = true ∧
    ConvertAddressWith "0x" "0x1234567890123456789012345678901234567890"
      = (encodeBech32 "0x"
          (HexToAddressBytes "0x1234567890123456789012345678901234567890"), none) :=
  ⟨by decide, by decide,
    claim_C9 "0x" "0x1234567890123456789012345678901234567890" (by decide) (by decide)⟩
